import Mathlib

/-!
Verification of the options-pricing-calculator core against its
natural-language specification.

The development shallowly embeds the C++ sources (src/src/option.cpp,
src/src/black_scholes.cpp, src/src/binomial.cpp, src/src/monte_carlo.cpp)
into Lean: IEEE doubles are modelled as real numbers, C++ exceptions as
Except values, and the mutation of Option fields as explicit state passing.
Loops over arrays are rendered as folds over functions from indices to
reals, mirroring the flat-vector layout of the source.
-/

open Real MeasureTheory Set

noncomputable section

namespace Pricer

/-- Embeds enum class OptionType from include/pricer/option.h. -/
inductive OptionType where
  | Call : OptionType
  | Put : OptionType
deriving DecidableEq

/-- Error conditions surfaced by the library: std::invalid_argument raised by
parameter validation and d1 computation, and the std::runtime_error raised
when a pricing query runs with no attached engine. -/
inductive PError where
  | InvalidParameter : PError
  | EngineNotSet : PError
deriving DecidableEq

/-- Embeds the parameter fields of class Option (option.cpp): type, strike,
expiry, spot, rate, volatility, dividend. The attached engine is passed
separately where needed. -/
structure OptionState where
  type : OptionType
  strike : ℝ
  expiry : ℝ
  spot : ℝ
  rate : ℝ
  volatility : ℝ
  dividend : ℝ

namespace OptionState

/-- Embeds Option::validateParameters (option.cpp lines 141-157): the checks
run in source order and the first violated one raises invalid_argument. -/
def validateParameters (o : OptionState) : Except PError Unit :=
  if o.strike ≤ 0 then .error .InvalidParameter
  else if o.expiry ≤ 0 then .error .InvalidParameter
  else if o.spot ≤ 0 then .error .InvalidParameter
  else if o.volatility ≤ 0 then .error .InvalidParameter
  else if o.dividend < 0 then .error .InvalidParameter
  else .ok ()

/-- The invariant the validation enforces, as a proposition. -/
def Valid (o : OptionState) : Prop :=
  0 < o.strike ∧ 0 < o.expiry ∧ 0 < o.spot ∧ 0 < o.volatility ∧ 0 ≤ o.dividend

/-- Embeds Option::setSpot (option.cpp lines 121-124). The C++ assigns the
field first and only then validates, so the returned state carries the new
spot even when validation throws. -/
def setSpot (o : OptionState) (v : ℝ) : Except PError Unit × OptionState :=
  let o' := { o with spot := v }
  (o'.validateParameters, o')

/-- Embeds Option::setRate (option.cpp lines 126-129): assign, then validate. -/
def setRate (o : OptionState) (v : ℝ) : Except PError Unit × OptionState :=
  let o' := { o with rate := v }
  (o'.validateParameters, o')

/-- Embeds Option::setVolatility (option.cpp lines 131-134): assign, then
validate. -/
def setVolatility (o : OptionState) (v : ℝ) : Except PError Unit × OptionState :=
  let o' := { o with volatility := v }
  (o'.validateParameters, o')

/-- Embeds Option::setDividend (option.cpp lines 136-139): assign, then
validate. -/
def setDividend (o : OptionState) (v : ℝ) : Except PError Unit × OptionState :=
  let o' := { o with dividend := v }
  (o'.validateParameters, o')

/-- Modelled from the spec: Option::setExpiry is declared in
include/pricer/option.h line 119 and called by the engines, but its body is
nowhere in the sources. The spec requires each mutator to re-validate the
invariant and to leave the prior state intact when validation fails. -/
def setExpiry (o : OptionState) (v : ℝ) : Except PError Unit × OptionState :=
  let o' := { o with expiry := v }
  match o'.validateParameters with
  | .ok _ => (.ok (), o')
  | .error e => (.error e, o)

end OptionState

/-! ## Analytic engine (black_scholes.cpp) -/

/-- The complementary error function, the mathematical function computed by
std::erfc used in BlackScholesPricingEngine::normalCDF. -/
def erfc (x : ℝ) : ℝ := (2 / Real.sqrt π) * ∫ t in Ioi x, Real.exp (-t ^ 2)

/-- Embeds BlackScholesPricingEngine::normalCDF (black_scholes.cpp lines
189-191): N(x) = erfc(-x / sqrt 2) / 2. -/
def normalCDF (x : ℝ) : ℝ := erfc (-x / Real.sqrt 2) / 2

/-- Embeds BlackScholesPricingEngine::calculateD1 (black_scholes.cpp lines
172-183): rejects T less or equal 0 and sigma less or equal 0 with
invalid_argument, otherwise returns the Black-Scholes d1. -/
def calculateD1 (S K r q sigma T : ℝ) : Except PError ℝ :=
  if T ≤ 0 then .error .InvalidParameter
  else if sigma ≤ 0 then .error .InvalidParameter
  else .ok ((Real.log (S / K) + (r - q + sigma * sigma / 2) * T) / (sigma * Real.sqrt T))

/-- Embeds BlackScholesPricingEngine::calculateD2 (black_scholes.cpp lines
185-187). -/
def calculateD2 (d1 sigma T : ℝ) : ℝ := d1 - sigma * Real.sqrt T

/-- The price the ok branch of BlackScholesPricingEngine::calculate computes,
as a total function of the parameters (black_scholes.cpp lines 49-62). -/
def bsPriceFormula (o : OptionState) : ℝ :=
  let d1 := (Real.log (o.spot / o.strike)
    + (o.rate - o.dividend + o.volatility * o.volatility / 2) * o.expiry)
    / (o.volatility * Real.sqrt o.expiry)
  let d2 := calculateD2 d1 o.volatility o.expiry
  match o.type with
  | .Call => o.spot * Real.exp (-o.dividend * o.expiry) * normalCDF d1
      - o.strike * Real.exp (-o.rate * o.expiry) * normalCDF d2
  | .Put => o.strike * Real.exp (-o.rate * o.expiry) * normalCDF (-d2)
      - o.spot * Real.exp (-o.dividend * o.expiry) * normalCDF (-d1)

/-- Embeds BlackScholesPricingEngine::calculate (black_scholes.cpp lines
20-67): extract the parameters, compute d1 (which may throw), d2, and the
call or put closed form. -/
def bsCalculate (o : OptionState) : Except PError ℝ := do
  let d1 ← calculateD1 o.spot o.strike o.rate o.dividend o.volatility o.expiry
  let d2 := calculateD2 d1 o.volatility o.expiry
  match o.type with
  | .Call => return o.spot * Real.exp (-o.dividend * o.expiry) * normalCDF d1
      - o.strike * Real.exp (-o.rate * o.expiry) * normalCDF d2
  | .Put => return o.strike * Real.exp (-o.rate * o.expiry) * normalCDF (-d2)
      - o.spot * Real.exp (-o.dividend * o.expiry) * normalCDF (-d1)

/-! ## Option pricing and Greek queries (option.cpp) -/

/-- A pricing engine, as seen from class Option: the calculate entry point
of the attached PricingEngine, a function from the current parameters to a
price or an error. -/
def Engine := OptionState → Except PError ℝ

/-- Embeds Option::price (option.cpp lines 30-35): with no engine attached
the call raises the no-pricing-engine runtime error, otherwise it delegates
to the engine with this Option as argument. -/
def optionPrice (eng : Option Engine) (o : OptionState) : Except PError ℝ :=
  match eng with
  | none => .error .EngineNotSet
  | some f => f o

/-- Embeds Option::delta (option.cpp lines 37-52): bump the spot up and down
by h = 0.01 through setSpot, price at each, restore, and return the central
difference. Each C++ statement that can throw is threaded explicitly; the
second component is the state of the Option object when the call ends,
normally or by exception. -/
def optionDelta (eng : Option Engine) (o : OptionState) :
    Except PError ℝ × OptionState :=
  let h : ℝ := 0.01
  let spot := o.spot
  match o.setSpot (spot + h) with
  | (.error e, o1) => (.error e, o1)
  | (.ok _, o1) =>
    match optionPrice eng o1 with
    | .error e => (.error e, o1)
    | .ok price_up =>
      match o1.setSpot (spot - h) with
      | (.error e, o2) => (.error e, o2)
      | (.ok _, o2) =>
        match optionPrice eng o2 with
        | .error e => (.error e, o2)
        | .ok price_down =>
          match o2.setSpot spot with
          | (.error e, o3) => (.error e, o3)
          | (.ok _, o3) => (.ok ((price_up - price_down) / (2 * h)), o3)

/-- Embeds Option::gamma (option.cpp lines 54-69): bump up, bump down,
restore, price once more at the middle, and return the second difference. -/
def optionGamma (eng : Option Engine) (o : OptionState) :
    Except PError ℝ × OptionState :=
  let h : ℝ := 0.01
  let spot := o.spot
  match o.setSpot (spot + h) with
  | (.error e, o1) => (.error e, o1)
  | (.ok _, o1) =>
    match optionPrice eng o1 with
    | .error e => (.error e, o1)
    | .ok price_up =>
      match o1.setSpot (spot - h) with
      | (.error e, o2) => (.error e, o2)
      | (.ok _, o2) =>
        match optionPrice eng o2 with
        | .error e => (.error e, o2)
        | .ok price_down =>
          match o2.setSpot spot with
          | (.error e, o3) => (.error e, o3)
          | (.ok _, o3) =>
            match optionPrice eng o3 with
            | .error e => (.error e, o3)
            | .ok price_mid =>
              (.ok ((price_up - 2 * price_mid + price_down) / (h * h)), o3)

/-- Embeds Option::theta (option.cpp lines 71-83): price, then decrement the
expiry field directly by one day (the source assigns the member without any
validation), price again, restore the field, and return the backward
difference. -/
def optionTheta (eng : Option Engine) (o : OptionState) :
    Except PError ℝ × OptionState :=
  let h : ℝ := 1 / 365
  let expiry := o.expiry
  match optionPrice eng o with
  | .error e => (.error e, o)
  | .ok original_price =>
    let o1 := { o with expiry := o.expiry - h }
    match optionPrice eng o1 with
    | .error e => (.error e, o1)
    | .ok new_price =>
      (.ok (-(new_price - original_price) / h), { o1 with expiry := expiry })

/-- Embeds Option::vega (option.cpp lines 85-99): bump volatility up and down
by h = 0.0001 through setVolatility, price at each, restore, and return the
central difference. -/
def optionVega (eng : Option Engine) (o : OptionState) :
    Except PError ℝ × OptionState :=
  let h : ℝ := 0.0001
  let vol := o.volatility
  match o.setVolatility (vol + h) with
  | (.error e, o1) => (.error e, o1)
  | (.ok _, o1) =>
    match optionPrice eng o1 with
    | .error e => (.error e, o1)
    | .ok price_up =>
      match o1.setVolatility (vol - h) with
      | (.error e, o2) => (.error e, o2)
      | (.ok _, o2) =>
        match optionPrice eng o2 with
        | .error e => (.error e, o2)
        | .ok price_down =>
          match o2.setVolatility vol with
          | (.error e, o3) => (.error e, o3)
          | (.ok _, o3) => (.ok ((price_up - price_down) / (2 * h)), o3)

/-- Embeds Option::rho (option.cpp lines 101-115): bump the rate up and down
by h = 0.0001 through setRate, price at each, restore, and return the
central difference. -/
def optionRho (eng : Option Engine) (o : OptionState) :
    Except PError ℝ × OptionState :=
  let h : ℝ := 0.0001
  let rate := o.rate
  match o.setRate (rate + h) with
  | (.error e, o1) => (.error e, o1)
  | (.ok _, o1) =>
    match optionPrice eng o1 with
    | .error e => (.error e, o1)
    | .ok price_up =>
      match o1.setRate (rate - h) with
      | (.error e, o2) => (.error e, o2)
      | (.ok _, o2) =>
        match optionPrice eng o2 with
        | .error e => (.error e, o2)
        | .ok price_down =>
          match o2.setRate rate with
          | (.error e, o3) => (.error e, o3)
          | (.ok _, o3) => (.ok ((price_up - price_down) / (2 * h)), o3)

/-! ## Lattice engine (binomial.cpp)

The C++ loops write into flat std::vector buffers; here a buffer is a
function from flat indices to reals, a write is Function.update, an
ascending for loop is iterUp and the descending backward-induction loop is
iterDown. -/

/-- An ascending counted loop: iterUp f n a runs the body f on indices
0, 1, ..., n-1 in that order, threading the state a. -/
def iterUp {α : Type} (f : ℕ → α → α) : ℕ → α → α
  | 0, a => a
  | n + 1, a => f n (iterUp f n a)

/-- A descending counted loop: iterDown f n a runs the body f on indices
n-1, n-2, ..., 0 in that order, threading the state a. It embeds the C++
loop for step = N-1 wrapping-down-to 0. -/
def iterDown {α : Type} (f : ℕ → α → α) : ℕ → α → α
  | 0, a => a
  | n + 1, a => iterDown f n (f n a)

/-- Embeds BinomialTreeEngine::getIndex (binomial.cpp lines 143-145):
triangular flat addressing step·(step+1)/2 + node. -/
def getIndex (step node : ℕ) : ℕ := step * (step + 1) / 2 + node

/-- Embeds BinomialTreeEngine::calculateParameters (binomial.cpp lines
101-116): the CRR up and down factors and the risk-neutral probability,
with no range check on the probability. -/
def calculateParameters (o : OptionState) (dt : ℝ) : ℝ × ℝ × ℝ :=
  let sigma := o.volatility
  let r := o.rate
  let q := o.dividend
  let u := Real.exp (sigma * Real.sqrt dt)
  let d := 1 / u
  let p := (Real.exp ((r - q) * dt) - d) / (u - d)
  (u, d, p)

/-- Embeds BinomialTreeEngine::calculatePayoff (binomial.cpp lines
130-141). -/
def calculatePayoff (o : OptionState) (spot_price : ℝ) : ℝ :=
  if o.type = OptionType.Call then max (spot_price - o.strike) 0
  else max (o.strike - spot_price) 0

/-- Embeds BinomialTreeEngine::buildPriceTree (binomial.cpp lines 44-60):
every (step, node) slot of the triangular buffer receives
S·u^node·d^(step-node). -/
def buildPriceTree (o : OptionState) (num_steps : ℕ) : ℕ → ℝ :=
  let dt := o.expiry / (num_steps : ℝ)
  let u := (calculateParameters o dt).1
  let d := (calculateParameters o dt).2.1
  let S := o.spot
  iterUp (fun step acc =>
      iterUp (fun node acc2 =>
          Function.update acc2 (getIndex step node)
            (S * u ^ node * d ^ (step - node)))
        (step + 1) acc)
    (num_steps + 1) (fun _ => 0)

/-- The body of the backward-induction loop of
BinomialTreeEngine::calculateOptionValues (binomial.cpp lines 80-95): the
discounted continuation value from the two step+1 slots of the buffer,
maxed with the immediate exercise payoff exactly for American options. -/
def backStepValue (o : OptionState) (price_tree : ℕ → ℝ) (american : Bool)
    (p df : ℝ) (step : ℕ) (acc2 : ℕ → ℝ) (node : ℕ) : ℝ :=
  let continuation := df * (p * acc2 (getIndex (step + 1) (node + 1))
    + (1 - p) * acc2 (getIndex (step + 1) node))
  if american then
    max continuation (calculatePayoff o (price_tree (getIndex step node)))
  else continuation

/-- Embeds BinomialTreeEngine::calculateOptionValues (binomial.cpp lines
62-99): terminal payoffs at step N, then backward induction with discounted
expectation, taking the early-exercise maximum exactly when the option is
American (the C++ decides this by a dynamic_cast on the Option's runtime
class, passed here as the Bool argument). -/
def calculateOptionValues (o : OptionState) (price_tree : ℕ → ℝ)
    (american : Bool) (num_steps : ℕ) : ℕ → ℝ :=
  let dt := o.expiry / (num_steps : ℝ)
  let p := (calculateParameters o dt).2.2
  let df := Real.exp (-o.rate * dt)
  let terminal := iterUp (fun node acc =>
      Function.update acc (getIndex num_steps node)
        (calculatePayoff o (price_tree (getIndex num_steps node))))
    (num_steps + 1) (fun _ => 0)
  iterDown (fun step acc =>
      iterUp (fun node acc2 =>
          Function.update acc2 (getIndex step node)
            (backStepValue o price_tree american p df step acc2 node))
        (step + 1) acc)
    num_steps terminal

/-- Embeds BinomialTreeEngine::calculateWithParameters (binomial.cpp lines
25-42): build the price tree, run the value recursion, return the root
(flat index 0). -/
def calculateWithParameters (o : OptionState) (american : Bool)
    (steps : ℕ) : ℝ :=
  calculateOptionValues o (buildPriceTree o steps) american steps 0

/-- Embeds BinomialTreeEngine::calculate together with
applyBBSExtrapolation (binomial.cpp lines 15-23 and 118-128). -/
def binomialCalculate (num_steps : ℕ) (use_bbs : Bool) (o : OptionState)
    (american : Bool) : ℝ :=
  let value := calculateWithParameters o american num_steps
  if use_bbs then
    2 * calculateWithParameters o american (2 * num_steps) - value
  else value

/-! ## Specification-side CRR backward induction

These definitions transcribe the formulas of the claim: dt = T/N,
u = exp(sigma·sqrt dt), d = 1/u, p = (exp((r-q)·dt) - d)/(u - d), terminal
payoffs at every terminal node, and the value recursion from step N-1 down
to 0 with the early-exercise maximum exactly for American options.
crrValue o american N k node is the value at step N-k, node node. -/

/-- Specification-side time step dt = T/N. -/
def crrDt (o : OptionState) (N : ℕ) : ℝ := o.expiry / (N : ℝ)

/-- Specification-side up factor u = exp(sigma·sqrt dt). -/
def crrU (o : OptionState) (N : ℕ) : ℝ :=
  Real.exp (o.volatility * Real.sqrt (crrDt o N))

/-- Specification-side down factor d = 1/u. -/
def crrD (o : OptionState) (N : ℕ) : ℝ := 1 / crrU o N

/-- Specification-side risk-neutral probability
p = (exp((r-q)·dt) - d)/(u - d). -/
def crrP (o : OptionState) (N : ℕ) : ℝ :=
  (Real.exp ((o.rate - o.dividend) * crrDt o N) - crrD o N)
    / (crrU o N - crrD o N)

/-- Specification-side payoff: max(S-K,0) for calls, max(K-S,0) for puts. -/
def crrPayoff (o : OptionState) (s : ℝ) : ℝ :=
  if o.type = OptionType.Call then max (s - o.strike) 0
  else max (o.strike - s) 0

/-- Specification-side backward induction. The first numeric argument k
counts steps remaining to expiry: k = 0 is the terminal row at step N, and
the value at (k+1, node), sitting at step N-(k+1), discounts the
expectation of the two step-above values, maxed with immediate exercise
exactly for American options. -/
def crrValue (o : OptionState) (american : Bool) (N : ℕ) :
    ℕ → ℕ → ℝ
  | 0, node => crrPayoff o (o.spot * crrU o N ^ node * crrD o N ^ (N - node))
  | k + 1, node =>
      let continuation := Real.exp (-o.rate * crrDt o N)
        * (crrP o N * crrValue o american N k (node + 1)
          + (1 - crrP o N) * crrValue o american N k node)
      if american then
        max continuation
          (crrPayoff o
            (o.spot * crrU o N ^ node * crrD o N ^ (N - (k + 1) - node)))
      else continuation

/-! ## Monte Carlo engine state and confidence interval (monte_carlo.cpp) -/

/-- Embeds the configuration and cached-statistics fields of class
MonteCarloEngine (include/pricer/monte_carlo.h lines 52-59). -/
structure MCEngine where
  num_paths : ℕ
  num_steps : ℕ
  use_antithetic : Bool
  num_threads : ℕ
  last_mean : ℝ
  last_stderr : ℝ

/-- Embeds MonteCarloEngine::MonteCarloEngine (monte_carlo.cpp lines 13-26):
the statistics cache starts at 0.0 and a thread count of 0 is replaced by
the hardware concurrency, passed here as an explicit argument. -/
def mkMonteCarloEngine (num_paths num_steps : ℕ) (use_antithetic : Bool)
    (num_threads hardware_concurrency : ℕ) : MCEngine :=
  { num_paths := num_paths
    num_steps := num_steps
    use_antithetic := use_antithetic
    num_threads := if num_threads = 0 then hardware_concurrency else num_threads
    last_mean := 0
    last_stderr := 0 }

/-- Embeds MonteCarloEngine::getConfidenceInterval (monte_carlo.cpp lines
151-164): a 95 percent interval from the cached mean and standard error,
both scaled by the discount factor of the option passed in. -/
def getConfidenceInterval (e : MCEngine) (o : OptionState) : ℝ × ℝ :=
  let z_score : ℝ := 1.96
  let margin := z_score * e.last_stderr
  let discount := Real.exp (-o.rate * o.expiry)
  let discounted_mean := e.last_mean * discount
  let discounted_margin := margin * discount
  (discounted_mean - discounted_margin, discounted_mean + discounted_margin)

/-- The random source seen by MonteCarloEngine::generatePath: the composite
of the seeded std::mt19937 and the std::normal_distribution is abstracted as
the sequence of standard-normal draws it produces, with a cursor recording
how many draws have been consumed. -/
structure Rng where
  stream : ℕ → ℝ
  pos : ℕ

/-- The loop of MonteCarloEngine::generatePath (monte_carlo.cpp lines
98-103): at each step draw z, negate it when the antithetic flag is set,
and multiply the running price by exp(drift + vol·z). Returns the generated
suffix of the path and the advanced random source. -/
def genPathAux (drift vol : ℝ) (antithetic : Bool) :
    ℕ → ℝ → Rng → List ℝ × Rng
  | 0, _, rng => ([], rng)
  | n + 1, prev, rng =>
      let z0 := rng.stream rng.pos
      let z := if antithetic then -z0 else z0
      let next := prev * Real.exp (drift + vol * z)
      let rest := genPathAux drift vol antithetic n next ⟨rng.stream, rng.pos + 1⟩
      (next :: rest.1, rest.2)

/-- Embeds MonteCarloEngine::generatePath (monte_carlo.cpp lines 78-106):
dt = T/steps, drift = (r - q - 0.5·sigma²)·dt, vol = sigma·sqrt dt, path[0]
= S, and each subsequent entry multiplies by exp(drift + vol·z) where z is
a fresh draw, negated when the antithetic argument is true. -/
def generatePath (o : OptionState) (num_steps : ℕ) (antithetic : Bool)
    (rng : Rng) : List ℝ × Rng :=
  let S := o.spot
  let r := o.rate
  let q := o.dividend
  let sigma := o.volatility
  let T := o.expiry
  let dt := T / (num_steps : ℝ)
  let drift := (r - q - 0.5 * sigma * sigma) * dt
  let vol := sigma * Real.sqrt dt
  let rest := genPathAux drift vol antithetic num_steps S rng
  (S :: rest.1, rest.2)

/-- Embeds MonteCarloEngine::calculatePayoff (monte_carlo.cpp lines
108-119). -/
def mcCalculatePayoff (o : OptionState) (final_price : ℝ) : ℝ :=
  if o.type = OptionType.Call then max (final_price - o.strike) 0
  else max (o.strike - final_price) 0

/-- The loop of MonteCarloEngine::simulateBatch (monte_carlo.cpp lines
130-146): for each path, generate it and take its payoff at the last entry;
when the engine's antithetic flag is set, generate a second path with the
negation flag on (advancing the same random source) and average the two
payoffs; accumulate the payoff and its square. -/
def simulateBatchAux (e : MCEngine) (o : OptionState) :
    ℕ → ℝ → ℝ → Rng → (ℝ × ℝ) × Rng
  | 0, sum_payoffs, sum_squared, rng => ((sum_payoffs, sum_squared), rng)
  | n + 1, sum_payoffs, sum_squared, rng =>
      let path := generatePath o e.num_steps false rng
      let payoff0 := mcCalculatePayoff o path.1.getLast!
      let step :=
        if e.use_antithetic then
          let anti := generatePath o e.num_steps true path.2
          ((payoff0 + mcCalculatePayoff o anti.1.getLast!) / 2, anti.2)
        else (payoff0, path.2)
      simulateBatchAux e o n (sum_payoffs + step.1)
        (sum_squared + step.1 * step.1) step.2

/-- Embeds MonteCarloEngine::simulateBatch (monte_carlo.cpp lines 121-149):
run num_paths iterations of the accumulation loop from zeroed accumulators,
returning (sum of payoffs, sum of squared payoffs) and the final random
source. -/
def simulateBatch (e : MCEngine) (o : OptionState) (rng : Rng)
    (num_paths : ℕ) : (ℝ × ℝ) × Rng :=
  simulateBatchAux e o num_paths 0 0 rng

/-! ## Concrete inputs used by counterexamples and witnesses -/

/-- A standard valid option: the at-the-money call of the test fixtures. -/
def stdCall : OptionState :=
  ⟨.Call, 100, 1, 100, 1 / 20, 1 / 5, 0⟩

/-- A valid option whose volatility is smaller than the 0.0001 vega bump, so
the downward bump inside Option::vega is rejected by validation. -/
def tinyVolOpt : OptionState :=
  ⟨.Call, 100, 1, 100, 0, 1 / 20000, 0⟩

/-- A call with a 100 percent dividend yield, for the parity counterexample. -/
def divCall : OptionState := ⟨.Call, 1, 1, 1, 0, 1, 1⟩

/-- The matching put for divCall. -/
def divPut : OptionState := ⟨.Put, 1, 1, 1, 0, 1, 1⟩

/-- A valid call (spot 1, rate 0, dividend 0, volatility 1, expiry 1,
strike 1/8) for exercising the Monte Carlo path generator: its per-step
drift is -1/2 and its per-step volatility is 1. -/
def mcOpt : OptionState := ⟨.Call, 1 / 8, 1, 1, 0, 1, 0⟩

/-- A one-path one-step antithetic Monte Carlo engine configuration. -/
def mcEng : MCEngine := mkMonteCarloEngine 1 1 true 1 1

/-- The normal-draw stream 0, 1, 2, ... -/
def natStream : ℕ → ℝ := fun n => (n : ℝ)

/-- A valid call (volatility ln 2, no rate, no dividend) whose CRR
parameters at one step come out to u = 2, d = 1/2, p = 1/3. -/
def wCall : OptionState := ⟨.Call, 1, 1, 1, 0, Real.log 2, 0⟩

/-- A valid call with dividend yield 2·ln 2 and volatility ln 2: at two
steps the CRR parameters are u = 2, d = 1/2 and the risk-neutral
probability is -1/6, outside [0,1]. -/
def cexOpt : OptionState := ⟨.Call, 1, 2, 1, 0, Real.log 2, 2 * Real.log 2⟩

/-! ## Theorems -/

theorem validateParameters_ok {o : OptionState} (h : o.Valid) :
    o.validateParameters = .ok () := by
  obtain ⟨h1, h2, h3, h4, h5⟩ := h
  unfold OptionState.validateParameters
  rw [if_neg (not_le.mpr h1), if_neg (not_le.mpr h2), if_neg (not_le.mpr h3),
    if_neg (not_le.mpr h4), if_neg (not_lt.mpr h5)]

theorem validateParameters_err_vol {o : OptionState} (h1 : 0 < o.strike)
    (h2 : 0 < o.expiry) (h3 : 0 < o.spot) (h4 : o.volatility ≤ 0) :
    o.validateParameters = .error .InvalidParameter := by
  unfold OptionState.validateParameters
  rw [if_neg (not_le.mpr h1), if_neg (not_le.mpr h2), if_neg (not_le.mpr h3),
    if_pos h4]

theorem setSpot_ok {o : OptionState} (h : o.Valid) {v : ℝ} (hv : 0 < v) :
    o.setSpot v = (.ok (), { o with spot := v }) := by
  simp only [OptionState.setSpot]
  rw [validateParameters_ok (o := { o with spot := v })
    ⟨h.1, h.2.1, hv, h.2.2.2.1, h.2.2.2.2⟩]

theorem setVolatility_ok {o : OptionState} (h : o.Valid) {v : ℝ} (hv : 0 < v) :
    o.setVolatility v = (.ok (), { o with volatility := v }) := by
  simp only [OptionState.setVolatility]
  rw [validateParameters_ok (o := { o with volatility := v })
    ⟨h.1, h.2.1, h.2.2.1, hv, h.2.2.2.2⟩]

theorem setRate_ok {o : OptionState} (h : o.Valid) (v : ℝ) :
    o.setRate v = (.ok (), { o with rate := v }) := by
  simp only [OptionState.setRate]
  rw [validateParameters_ok (o := { o with rate := v })
    ⟨h.1, h.2.1, h.2.2.1, h.2.2.2.1, h.2.2.2.2⟩]

theorem bsCalculate_ok {o : OptionState} (hT : 0 < o.expiry)
    (hs : 0 < o.volatility) : bsCalculate o = .ok (bsPriceFormula o) := by
  unfold bsCalculate calculateD1 bsPriceFormula
  rw [if_neg (not_le.mpr hT), if_neg (not_le.mpr hs)]
  cases o.type <;> rfl

theorem triangle_succ (s : ℕ) :
    (s + 1) * (s + 2) / 2 = s * (s + 1) / 2 + (s + 1) := by
  rw [show (s + 1) * (s + 2) = s * (s + 1) + 2 * (s + 1) by ring,
    Nat.add_mul_div_left _ _ (by norm_num : 0 < 2)]

theorem getIndex_lt_row {s n t : ℕ} (m : ℕ) (hn : n ≤ s) (hst : s < t) :
    getIndex s n < getIndex t m := by
  unfold getIndex
  calc s * (s + 1) / 2 + n < s * (s + 1) / 2 + (s + 1) := by omega
    _ = (s + 1) * (s + 2) / 2 := (triangle_succ s).symm
    _ ≤ t * (t + 1) / 2 :=
      Nat.div_le_div_right (Nat.mul_le_mul (by omega) (by omega))
    _ ≤ t * (t + 1) / 2 + m := Nat.le_add_right _ _

theorem iterUp_succ_apply {α : Type} (f : ℕ → α → α) (n : ℕ) (a : α) :
    iterUp f (n + 1) a = f n (iterUp f n a) := rfl

theorem iterUp_write_preserve (idx : ℕ → ℕ) (val : (ℕ → ℝ) → ℕ → ℝ) :
    ∀ (m : ℕ) (a : ℕ → ℝ) (j : ℕ), (∀ i, i < m → idx i ≠ j) →
    iterUp (fun node acc => Function.update acc (idx node) (val acc node))
      m a j = a j := by
  intro m
  induction m with
  | zero => intro a j _; rfl
  | succ m ih =>
    intro a j h
    simp only [iterUp]
    rw [Function.update_noteq (fun hEq => h m (Nat.lt_succ_self m) hEq.symm)]
    exact ih a j (fun i hi => h i (Nat.lt_succ_of_lt hi))

theorem iterUp_write_apply (idx : ℕ → ℕ) (val : (ℕ → ℝ) → ℕ → ℝ) :
    ∀ (m : ℕ) (a : ℕ → ℝ),
    (∀ acc node, node < m →
      (∀ j, (∀ i, i < m → idx i ≠ j) → acc j = a j) →
      val acc node = val a node) →
    (∀ i i2, i < m → i2 < m → idx i = idx i2 → i = i2) →
    ∀ n, n < m →
    iterUp (fun node acc => Function.update acc (idx node) (val acc node))
      m a (idx n) = val a n := by
  intro m
  induction m with
  | zero => intro a _ _ n hn; omega
  | succ m ih =>
    intro a hval hinj n hn
    simp only [iterUp]
    by_cases hnm : n = m
    · subst hnm
      rw [Function.update_same]
      exact hval _ n (Nat.lt_succ_self n)
        (fun j hj => iterUp_write_preserve idx val n a j
          (fun i hi => hj i (Nat.lt_succ_of_lt hi)))
    · have hne : idx n ≠ idx m := fun hEq =>
        hnm (hinj n m hn (Nat.lt_succ_self m) hEq)
      rw [Function.update_noteq hne]
      exact ih a
        (fun acc node hnode hagree => hval acc node (Nat.lt_succ_of_lt hnode)
          (fun j hj => hagree j (fun i hi => hj i (Nat.lt_succ_of_lt hi))))
        (fun i i2 hi hi2 hEq =>
          hinj i i2 (Nat.lt_succ_of_lt hi) (Nat.lt_succ_of_lt hi2) hEq)
        n (by omega)

theorem getIndex_row_inj {s : ℕ} :
    ∀ i i2 : ℕ, getIndex s i = getIndex s i2 → i = i2 := by
  intro i i2 h
  simp only [getIndex] at h
  omega

theorem priceTree_fold_apply (S u d : ℝ) :
    ∀ (m : ℕ) (s n : ℕ), s < m → n ≤ s →
    iterUp (fun step acc =>
        iterUp (fun node acc2 =>
            Function.update acc2 (getIndex step node)
              (S * u ^ node * d ^ (step - node)))
          (step + 1) acc)
      m (fun _ => (0 : ℝ)) (getIndex s n) = S * u ^ n * d ^ (s - n) := by
  intro m
  induction m with
  | zero => intro s n hs _; omega
  | succ m ih =>
    intro s n hs hn
    rw [iterUp_succ_apply]
    by_cases hsm : s = m
    · subst hsm
      exact iterUp_write_apply (getIndex s)
        (fun _ node => S * u ^ node * d ^ (s - node)) (s + 1) _
        (fun _ _ _ _ => rfl)
        (fun _ _ _ _ hEq => getIndex_row_inj _ _ hEq)
        n (by omega)
    · have hsm2 : s < m := by omega
      rw [iterUp_write_preserve (getIndex m)
        (fun _ node => S * u ^ node * d ^ (m - node)) (m + 1) _ _
        (fun i _ => Nat.ne_of_gt (getIndex_lt_row i hn hsm2))]
      exact ih s n hsm2 hn

theorem buildPriceTree_apply (o : OptionState) (N : ℕ) {s n : ℕ}
    (hs : s ≤ N) (hn : n ≤ s) :
    buildPriceTree o N (getIndex s n)
      = o.spot * crrU o N ^ n * crrD o N ^ (s - n) := by
  have hu : (calculateParameters o (o.expiry / (N : ℝ))).1 = crrU o N := rfl
  have hd : (calculateParameters o (o.expiry / (N : ℝ))).2.1 = crrD o N := rfl
  simp only [buildPriceTree]
  rw [hu, hd]
  exact priceTree_fold_apply o.spot (crrU o N) (crrD o N) (N + 1) s n
    (by omega) hn

theorem calculatePayoff_eq_crrPayoff (o : OptionState) (x : ℝ) :
    calculatePayoff o x = crrPayoff o x := rfl

theorem backward_fold_root (o : OptionState) (amer : Bool) (N : ℕ)
    (p df : ℝ) (hp : p = crrP o N)
    (hdf : df = Real.exp (-o.rate * crrDt o N)) (pt : ℕ → ℝ)
    (hpt : ∀ s n, s ≤ N → n ≤ s →
      calculatePayoff o (pt (getIndex s n))
        = crrPayoff o (o.spot * crrU o N ^ n * crrD o N ^ (s - n))) :
    ∀ j, j ≤ N → ∀ a : ℕ → ℝ,
    (∀ n, n ≤ j → a (getIndex j n) = crrValue o amer N (N - j) n) →
    iterDown (fun step acc =>
        iterUp (fun node acc2 =>
            Function.update acc2 (getIndex step node)
              (backStepValue o pt amer p df step acc2 node))
          (step + 1) acc)
      j a 0 = crrValue o amer N N 0 := by
  intro j
  induction j with
  | zero =>
    intro _ a ha
    simpa [getIndex, iterDown] using ha 0 (le_refl 0)
  | succ j ih =>
    intro hjN a ha
    simp only [iterDown]
    apply ih (by omega)
    intro n hn
    have hval : ∀ acc node, node < j + 1 →
        (∀ i2, (∀ i, i < j + 1 → getIndex j i ≠ i2) → acc i2 = a i2) →
        backStepValue o pt amer p df j acc node
          = backStepValue o pt amer p df j a node := by
      intro acc node _ hagree
      simp only [backStepValue]
      rw [hagree (getIndex (j + 1) (node + 1))
          (fun i hi => Nat.ne_of_lt
            (getIndex_lt_row (node + 1) (by omega) (Nat.lt_succ_self j))),
        hagree (getIndex (j + 1) node)
          (fun i hi => Nat.ne_of_lt
            (getIndex_lt_row node (by omega) (Nat.lt_succ_self j)))]
    have h1 := iterUp_write_apply (getIndex j)
      (backStepValue o pt amer p df j) (j + 1) a hval
      (fun _ _ _ _ hEq => getIndex_row_inj _ _ hEq) n (by omega)
    rw [h1]
    have hNj : N - j = N - (j + 1) + 1 := by omega
    rw [hNj]
    simp only [backStepValue, crrValue]
    rw [ha (n + 1) (by omega), ha n (by omega), hp, hdf,
      hpt j n (by omega) hn,
      show N - (N - (j + 1) + 1) - n = j - n by omega]

theorem calcWith_eq_crr (o : OptionState) (amer : Bool) (N : ℕ) :
    calculateWithParameters o amer N = crrValue o amer N N 0 := by
  simp only [calculateWithParameters, calculateOptionValues]
  refine backward_fold_root o amer N _ _ rfl rfl (buildPriceTree o N)
    (fun s n hs hn => by
      rw [buildPriceTree_apply o N hs hn]
      exact calculatePayoff_eq_crrPayoff o _)
    N (le_refl N) _ ?_
  intro n hn
  have h1 := iterUp_write_apply (getIndex N)
    (fun _ node => calculatePayoff o (buildPriceTree o N (getIndex N node)))
    (N + 1) (fun _ => 0) (fun _ _ _ _ => rfl)
    (fun _ _ _ _ hEq => getIndex_row_inj _ _ hEq) n (by omega)
  rw [h1]
  show calculatePayoff o (buildPriceTree o N (getIndex N n))
    = crrValue o amer N (N - N) n
  rw [buildPriceTree_apply o N (le_refl N) hn, Nat.sub_self]
  simp only [crrValue]
  rfl

theorem cex_dt : crrDt cexOpt 2 = 1 := by
  simp only [crrDt, cexOpt]
  norm_num

theorem cex_u : crrU cexOpt 2 = 2 := by
  simp only [crrU]
  rw [cex_dt, Real.sqrt_one]
  simp only [cexOpt]
  rw [mul_one, Real.exp_log (by norm_num : (0 : ℝ) < 2)]

theorem cex_d : crrD cexOpt 2 = 1 / 2 := by
  simp only [crrD]
  rw [cex_u]

theorem cex_p : crrP cexOpt 2 = -(1 / 6) := by
  simp only [crrP]
  rw [cex_u, cex_d, cex_dt]
  rw [show (cexOpt.rate - cexOpt.dividend) * 1
      = -(Real.log 2 + Real.log 2) from by
    simp only [cexOpt]; ring]
  rw [Real.exp_neg, Real.exp_add, Real.exp_log (by norm_num : (0 : ℝ) < 2)]
  norm_num

theorem cex_df : Real.exp (-cexOpt.rate * crrDt cexOpt 2) = 1 := by
  rw [cex_dt]
  simp only [cexOpt]
  norm_num

theorem cex_eu_root : calculateWithParameters cexOpt false 2 = 1 / 12 := by
  rw [calcWith_eq_crr]
  show crrValue cexOpt false 2 (0 + 1 + 1) 0 = 1 / 12
  simp only [crrValue]
  rw [cex_p, cex_df, cex_u, cex_d]
  norm_num [crrPayoff, cexOpt, max_def]

theorem cex_am_root : calculateWithParameters cexOpt true 2 = 0 := by
  rw [calcWith_eq_crr]
  show crrValue cexOpt true 2 (0 + 1 + 1) 0 = 0
  simp only [crrValue]
  rw [cex_p, cex_df, cex_u, cex_d]
  norm_num [crrPayoff, cexOpt, max_def]

theorem crrValue_euro_le_amer (o : OptionState) (N : ℕ)
    (hp0 : 0 ≤ crrP o N) (hp1 : crrP o N ≤ 1) :
    ∀ k n, crrValue o false N k n ≤ crrValue o true N k n := by
  intro k
  induction k with
  | zero => intro n; exact le_refl _
  | succ k ih =>
    intro n
    simp only [crrValue]
    rw [if_pos trivial]
    refine le_trans ?_ (le_max_left _ _)
    have h1 := ih (n + 1)
    have h2 := ih n
    have hdf : (0 : ℝ) ≤ Real.exp (-o.rate * crrDt o N) := (Real.exp_pos _).le
    have hsum := add_le_add (mul_le_mul_of_nonneg_left h1 hp0)
      (mul_le_mul_of_nonneg_left h2 (sub_nonneg.mpr hp1))
    exact mul_le_mul_of_nonneg_left hsum hdf

/-- C2: for every option and step count N at least 1, the lattice engine
price (the extrapolation-free calculateWithParameters entry) equals the CRR
backward induction of the specification: node prices S·u^node·d^(step-node),
terminal payoffs at every terminal node, discounted expectation from step
N-1 down to 0 with the early-exercise maximum exactly for American options,
returning the root value. -/
theorem spec_c2_lattice_backward_induction (o : OptionState) (amer : Bool)
    (N : ℕ) (hN : 1 ≤ N) :
    calculateWithParameters o amer N = crrValue o amer N N 0 :=
  calcWith_eq_crr o amer N

/-- Witness for C2 at the standard call with one step. -/
theorem spec_c2_lattice_backward_induction_witness :
    1 ≤ 1 ∧ calculateWithParameters stdCall false 1
      = crrValue stdCall false 1 1 0 :=
  ⟨le_refl 1,
    spec_c2_lattice_backward_induction stdCall false 1 (le_refl 1)⟩

/-- Counterexample to C3 as stated: with strike 1, expiry 2, spot 1,
rate 0, volatility ln 2 and dividend 2·ln 2 (all passing validation), at
N = 2 steps the risk-neutral probability is -1/6 and the American lattice
price 0 is strictly below the European price 1/12. -/
theorem spec_c3_counterexample :
    calculateWithParameters cexOpt true 2
      < calculateWithParameters cexOpt false 2 := by
  rw [cex_eu_root, cex_am_root]
  norm_num

/-- C3 (corrected): whenever the CRR risk-neutral probability lies in
[0, 1], the American lattice price dominates the European one for identical
parameters, any step count at least 1, extrapolation disabled. -/
theorem spec_c3_american_ge_european (o : OptionState) (N : ℕ)
    (hN : 1 ≤ N) (hp0 : 0 ≤ crrP o N) (hp1 : crrP o N ≤ 1) :
    calculateWithParameters o false N ≤ calculateWithParameters o true N := by
  rw [calcWith_eq_crr, calcWith_eq_crr]
  exact crrValue_euro_le_amer o N hp0 hp1 N 0

theorem wCall_p : crrP wCall 1 = 1 / 3 := by
  simp only [crrP, crrU, crrD, crrDt, wCall]
  rw [Nat.cast_one]
  norm_num [Real.sqrt_one, Real.exp_log (by norm_num : (0 : ℝ) < 2)]

/-- Witness for the corrected C3 at the one-step call with p = 1/3. -/
theorem spec_c3_american_ge_european_witness :
    1 ≤ 1 ∧ (0 ≤ crrP wCall 1 ∧ crrP wCall 1 ≤ 1) ∧
    calculateWithParameters wCall false 1
      ≤ calculateWithParameters wCall true 1 :=
  ⟨le_refl 1, ⟨by rw [wCall_p]; norm_num, by rw [wCall_p]; norm_num⟩,
    spec_c3_american_ge_european wCall 1 (le_refl 1)
      (by rw [wCall_p]; norm_num) (by rw [wCall_p]; norm_num)⟩

/-- Counterexample to C5 as stated: at cexOpt with N = 2 the risk-neutral
probability is -1/6, outside [0,1], yet the lattice calculation does not
fail: it returns the value 1/12 (the engine has no error channel at all for
this condition). -/
theorem spec_c5_counterexample :
    crrP cexOpt 2 < 0 ∧ calculateWithParameters cexOpt false 2 = 1 / 12 :=
  ⟨by rw [cex_p]; norm_num, cex_eu_root⟩

/-- C5 (corrected): the lattice engine performs no range check on p; for
every option, European or American, even when p falls outside [0,1] the
calculation silently returns the CRR backward-induction value instead of
failing. -/
theorem spec_c5_no_probability_check (o : OptionState) (amer : Bool)
    (N : ℕ) (hN : 1 ≤ N) (hp : crrP o N < 0 ∨ 1 < crrP o N) :
    calculateWithParameters o amer N = crrValue o amer N N 0 :=
  calcWith_eq_crr o amer N

/-- Witness for the corrected C5 at cexOpt, whose p = -1/6 is out of
range, in the American variant. -/
theorem spec_c5_no_probability_check_witness :
    1 ≤ 1 ∧ (crrP cexOpt 2 < 0 ∨ 1 < crrP cexOpt 2) ∧
    calculateWithParameters cexOpt true 2 = crrValue cexOpt true 2 2 0 :=
  ⟨le_refl 1, Or.inl (by rw [cex_p]; norm_num),
    spec_c5_no_probability_check cexOpt true 2 (by norm_num)
      (Or.inl (by rw [cex_p]; norm_num))⟩

/-- C1: for every Option with positive expiry and volatility the analytic
engine returns exactly the Black-Scholes-Merton closed form, with N computed
through the complementary-error-function identity; for non-positive expiry
or volatility it fails with InvalidParameter. -/
theorem spec_c1_analytic_closed_form (o : OptionState) :
    (0 < o.expiry → 0 < o.volatility →
      bsCalculate o = .ok (
        let d1 := (Real.log (o.spot / o.strike)
          + (o.rate - o.dividend + o.volatility ^ 2 / 2) * o.expiry)
          / (o.volatility * Real.sqrt o.expiry)
        let d2 := d1 - o.volatility * Real.sqrt o.expiry
        let N := fun x : ℝ => erfc (-x / Real.sqrt 2) / 2
        match o.type with
        | .Call => o.spot * Real.exp (-o.dividend * o.expiry) * N d1
            - o.strike * Real.exp (-o.rate * o.expiry) * N d2
        | .Put => o.strike * Real.exp (-o.rate * o.expiry) * N (-d2)
            - o.spot * Real.exp (-o.dividend * o.expiry) * N (-d1))) ∧
    (o.expiry ≤ 0 ∨ o.volatility ≤ 0 →
      bsCalculate o = .error .InvalidParameter) := by
  constructor
  · intro hT hs
    rw [bsCalculate_ok hT hs]
    unfold bsPriceFormula calculateD2 normalCDF
    have hsq : o.volatility * o.volatility = o.volatility ^ 2 := (sq o.volatility).symm
    cases o.type <;> simp only [hsq]
  · intro hbad
    unfold bsCalculate calculateD1
    rcases hbad with hT | hs
    · rw [if_pos hT]; rfl
    · by_cases hT : o.expiry ≤ 0
      · rw [if_pos hT]; rfl
      · rw [if_neg hT, if_pos hs]; rfl

/-- Witness for C1 at the standard at-the-money call. -/
theorem spec_c1_analytic_closed_form_witness :
    (0 : ℝ) < stdCall.expiry ∧ (0 : ℝ) < stdCall.volatility ∧
    ∃ v, bsCalculate stdCall = .ok v :=
  ⟨by norm_num [stdCall], by norm_num [stdCall],
    ⟨_, (spec_c1_analytic_closed_form stdCall).1 (by norm_num [stdCall])
      (by norm_num [stdCall])⟩⟩

theorem erfc_add_erfc_neg (x : ℝ) : erfc x + erfc (-x) = 2 := by
  have hint : Integrable (fun t : ℝ => Real.exp (-t ^ 2)) := by
    simpa using integrable_exp_neg_mul_sq (by norm_num : (0 : ℝ) < 1)
  have hneg : (∫ t in Ioi (-x), Real.exp (-t ^ 2))
      = ∫ t in Iic x, Real.exp (-t ^ 2) := by
    have := integral_comp_neg_Ioi (-x) (fun t : ℝ => Real.exp (-t ^ 2))
    simpa using this
  have hsplit : (∫ t in Iic x, Real.exp (-t ^ 2))
      + (∫ t in Ioi x, Real.exp (-t ^ 2))
      = ∫ t : ℝ, Real.exp (-t ^ 2) := by
    have := integral_add_compl (measurableSet_Iic : MeasurableSet (Iic x))
      hint
    rwa [compl_Iic] at this
  have hg : (∫ t : ℝ, Real.exp (-t ^ 2)) = Real.sqrt π := by
    simpa using integral_gaussian 1
  have hπ : Real.sqrt π ≠ 0 := ne_of_gt (Real.sqrt_pos.mpr Real.pi_pos)
  unfold erfc
  rw [hneg]
  field_simp
  linarith [hsplit, hg]

theorem normalCDF_add_neg (x : ℝ) : normalCDF x + normalCDF (-x) = 1 := by
  unfold normalCDF
  have h := erfc_add_erfc_neg (-x / Real.sqrt 2)
  have harg : -(-x) / Real.sqrt 2 = -(-x / Real.sqrt 2) := by ring
  rw [harg]
  linarith

theorem bsPriceFormula_parity (K T S r σ q : ℝ) :
    bsPriceFormula ⟨.Call, K, T, S, r, σ, q⟩
      - bsPriceFormula ⟨.Put, K, T, S, r, σ, q⟩
      = S * Real.exp (-q * T) - K * Real.exp (-r * T) := by
  unfold bsPriceFormula
  simp only []
  set d1 := (Real.log (S / K) + (r - q + σ * σ / 2) * T) / (σ * Real.sqrt T)
    with hd1
  have h1 := normalCDF_add_neg d1
  have h2 := normalCDF_add_neg (calculateD2 d1 σ T)
  linear_combination S * Real.exp (-q * T) * h1
    - K * Real.exp (-r * T) * h2

/-- C7 (corrected): put-call parity under the analytic engine with a
dividend yield reads call minus put equals S·exp(-qT) - K·exp(-rT); the
claimed S - K·exp(-rT) is the q = 0 special case. -/
theorem spec_c7_parity_with_dividend (K T S r σ q : ℝ) (hT : 0 < T)
    (hσ : 0 < σ) :
    ∃ c p, bsCalculate ⟨.Call, K, T, S, r, σ, q⟩ = .ok c ∧
      bsCalculate ⟨.Put, K, T, S, r, σ, q⟩ = .ok p ∧
      c - p = S * Real.exp (-q * T) - K * Real.exp (-r * T) :=
  ⟨_, _, bsCalculate_ok hT hσ, bsCalculate_ok hT hσ,
    bsPriceFormula_parity K T S r σ q⟩

/-- Witness for the corrected C7 at strike 1, expiry 1, spot 1, rate 0,
volatility 1, dividend 0. -/
theorem spec_c7_parity_with_dividend_witness :
    (0 : ℝ) < 1 ∧
    ∃ c p, bsCalculate ⟨.Call, 1, 1, 1, 0, 1, 0⟩ = .ok c ∧
      bsCalculate ⟨.Put, 1, 1, 1, 0, 1, 0⟩ = .ok p ∧
      c - p = 1 * Real.exp (-0 * 1) - 1 * Real.exp (-0 * 1) :=
  ⟨by norm_num,
    spec_c7_parity_with_dividend 1 1 1 0 1 0 (by norm_num) (by norm_num)⟩

/-- Counterexample to C7 as stated: with a 100 percent dividend yield the
engine prices satisfy call minus put = exp(-1) - 1, not the claimed
S - K·exp(-rT) = 0. -/
theorem spec_c7_counterexample :
    bsCalculate divCall = .ok (bsPriceFormula divCall) ∧
    bsCalculate divPut = .ok (bsPriceFormula divPut) ∧
    bsPriceFormula divCall - bsPriceFormula divPut
      ≠ divCall.spot - divCall.strike
        * Real.exp (-divCall.rate * divCall.expiry) := by
  refine ⟨bsCalculate_ok (by norm_num [divCall]) (by norm_num [divCall]),
    bsCalculate_ok (by norm_num [divPut]) (by norm_num [divPut]), ?_⟩
  have hpar := bsPriceFormula_parity 1 1 1 0 1 1
  have hcall : divCall = (⟨.Call, 1, 1, 1, 0, 1, 1⟩ : OptionState) := rfl
  have hput : divPut = (⟨.Put, 1, 1, 1, 0, 1, 1⟩ : OptionState) := rfl
  rw [hcall, hput, hpar]
  have hlt : Real.exp (-1 * 1) < 1 := by
    rw [show (-1 : ℝ) * 1 = -1 by ring]
    exact Real.exp_lt_one_iff.mpr (by norm_num)
  simp only [OptionState.spot, OptionState.strike, OptionState.rate,
    OptionState.expiry]
  intro hEq
  rw [show (-(0:ℝ) * 1) = 0 by ring, Real.exp_zero] at hEq
  nlinarith [hlt]

/-- C4 (code bug): setSpot assigns the field before validating, so after the
rejected call setSpot(-1) on a previously valid option the InvalidParameter
failure is reported but the stored spot is the invalid -1, not the prior
100: the partial mutation survives the failed operation. -/
theorem spec_c4_set_then_validate :
    (stdCall.setSpot (-1)).1 = .error .InvalidParameter ∧
    (stdCall.setSpot (-1)).2.spot = -1 ∧
    stdCall.spot = 100 := by
  refine ⟨?_, rfl, rfl⟩
  unfold stdCall OptionState.setSpot OptionState.validateParameters
  norm_num

/-- C9: on a valid option with no engine attached, price and all five Greek
queries fail with EngineNotSet. -/
theorem spec_c9_engine_not_set (o : OptionState) (h : o.Valid) :
    optionPrice none o = .error .EngineNotSet ∧
    (optionDelta none o).1 = .error .EngineNotSet ∧
    (optionGamma none o).1 = .error .EngineNotSet ∧
    (optionTheta none o).1 = .error .EngineNotSet ∧
    (optionVega none o).1 = .error .EngineNotSet ∧
    (optionRho none o).1 = .error .EngineNotSet := by
  have hS : (0 : ℝ) < o.spot + 0.01 := by
    have := h.2.2.1; norm_num; linarith
  have hV : (0 : ℝ) < o.volatility + 0.0001 := by
    have := h.2.2.2.1; norm_num; linarith
  refine ⟨rfl, ?_, ?_, rfl, ?_, ?_⟩
  · simp only [optionDelta]
    rw [setSpot_ok h hS]
    rfl
  · simp only [optionGamma]
    rw [setSpot_ok h hS]
    rfl
  · simp only [optionVega]
    rw [setVolatility_ok h hV]
    rfl
  · simp only [optionRho]
    rw [setRate_ok h _]
    rfl

/-- Witness for C9 at the standard call. -/
theorem spec_c9_engine_not_set_witness :
    stdCall.Valid ∧ optionPrice none stdCall = .error .EngineNotSet :=
  ⟨by constructor <;> norm_num [stdCall],
    (spec_c9_engine_not_set stdCall
      (by constructor <;> norm_num [stdCall])).1⟩

/-- C10: on a freshly constructed Monte Carlo engine the cached mean and
standard error are zero, so getConfidenceInterval succeeds and returns the
degenerate interval (0, 0) for any option. -/
theorem spec_c10_fresh_confidence_interval (np ns : ℕ) (ua : Bool)
    (nt hw : ℕ) (o : OptionState) :
    getConfidenceInterval (mkMonteCarloEngine np ns ua nt hw) o = (0, 0) := by
  unfold getConfidenceInterval mkMonteCarloEngine
  norm_num

/-- C6 (code bug): with the antithetic flag set the batch loop draws a
fresh normal for the mirror path instead of reusing the first path's draws.
At one step with draw stream 0, 1, 2, ...: the first path consumes draw 0,
the antithetic path consumes draw 1 and negates it, so after one path pair
two draws are consumed (the claim implies one), and the antithetic final
price exp(-1/2 - natStream 1) differs from the true mirror of the first
path exp(-1/2 - natStream 0). -/
theorem spec_c6_antithetic_not_mirrored :
    (generatePath mcOpt 1 true
      (generatePath mcOpt 1 false ⟨natStream, 0⟩).2).2.pos = 2 ∧
    (simulateBatch mcEng mcOpt ⟨natStream, 0⟩ 1).2.pos = 2 ∧
    (generatePath mcOpt 1 false ⟨natStream, 0⟩).1.getLast!
      = Real.exp (-(1 : ℝ) / 2 + 1 * natStream 0) ∧
    (generatePath mcOpt 1 true
      (generatePath mcOpt 1 false ⟨natStream, 0⟩).2).1.getLast!
      = Real.exp (-(1 : ℝ) / 2 + 1 * -(natStream 1)) ∧
    Real.exp (-(1 : ℝ) / 2 + 1 * -(natStream 1))
      ≠ Real.exp (-(1 : ℝ) / 2 + 1 * -(natStream 0)) := by
  refine ⟨?_, ?_, ?_, ?_, ?_⟩
  · norm_num [generatePath, genPathAux, mcOpt, natStream]
  · norm_num [simulateBatch, simulateBatchAux, generatePath, genPathAux,
      mcEng, mkMonteCarloEngine, mcOpt, natStream]
  · norm_num [generatePath, genPathAux, mcOpt, natStream, List.getLast!,
      Real.sqrt_one]
  · norm_num [generatePath, genPathAux, mcOpt, natStream, List.getLast!,
      Real.sqrt_one]
  · rw [Ne, Real.exp_eq_exp]
    norm_num [natStream]

/-- C8 (code bug): Option::vega on a valid option whose volatility is below
the 0.0001 bump, with the analytic engine attached, escapes with
InvalidParameter from the downward bump and leaves the stored volatility at
the negative bumped value instead of restoring the original. -/
theorem spec_c8_vega_not_restored :
    (optionVega (some bsCalculate) tinyVolOpt).1 = .error .InvalidParameter ∧
    (optionVega (some bsCalculate) tinyVolOpt).2.volatility = -(1 / 20000) ∧
    tinyVolOpt.volatility = 1 / 20000 := by
  norm_num [optionVega, tinyVolOpt, OptionState.setVolatility,
    OptionState.validateParameters, optionPrice, bsCalculate, calculateD1,
    calculateD2]

end Pricer
